import Mathlib

/-!
Verification of the NERC practice repository.

This file gives a shallow embedding, in Lean, of the pure data-transformation
core of the repository:

* `part2_train_custom_nerc/data_conversion.py`:
  `load_spacy_train_data_from_bio_dataset` and `remove_overlapping_entities`;
* `part2_train_custom_nerc/evaluation.py`:
  `evaluate`, `convert_predictions_to_str_set`, `convert_gold_to_str_set`,
  `compare_predictions_and_gold_labels`;
* `part2_train_custom_nerc/spacy_nerc_training.py`:
  the checkpoint-saving policy of the epoch loop in `train_nerc_model`.

Modelling conventions:

* Python strings are modelled as `List Char`; Python `len` is `List.length`
  (both count characters).  Python string offsets in this code are produced
  only from `len(...)` and addition (never subtraction), so they are
  modelled as `Nat`.
* Python `str.strip()` is `pyStripL` (drop whitespace from both ends).
* Python floats in the evaluator are modelled as `ℚ`: the evaluator only
  divides pooled integer counts, so rational arithmetic captures the
  intended values exactly.
* Python exceptions (`raise Exception(...)` on an unknown tag prefix, and
  the `IndexError` from `tag.split('-')[1]` on a hyphen-free tag) are
  modelled with `Except (List Char)`.
* External spaCy calls (`nlp(text)`, `nlp.update`, model persistence) are
  opaque collaborators: the evaluator takes the prediction function as an
  argument, and the training loop is modelled on the sequence of per-epoch
  F-scores that `evaluate` returns.
-/

/-- Python `str.strip()` on a character list: remove leading and trailing
whitespace.  (Python also strips `\f`/`\v`, which `Char.isWhitespace` does
not cover; no claim involves those characters.) -/
def pyStripL (l : List Char) : List Char :=
  ((l.dropWhile Char.isWhitespace).reverse.dropWhile Char.isWhitespace).reverse

/-- Python `str.split(sep)` for a single-character separator: split on every
occurrence, keeping empty segments (so `"B-".split('-') = ["B", ""]`). -/
def pySplitOn (sep : Char) : List Char → List (List Char)
  | [] => [[]]
  | c :: rest =>
    let r := pySplitOn sep rest
    if c = sep then [] :: r
    else
      match r with
      | h :: t => (c :: h) :: t
      | [] => [[c]]

/-- Python `str.startswith(c)` for a single character `c`:
true iff the string is nonempty and its first character is `c`. -/
def pyStartswith (c : Char) : List Char → Bool
  | [] => false
  | d :: _ => d = c

/-- Python slice `s[a:b]` for natural `a`, `b` (with Python's clamping
behaviour at the ends). -/
def pySlice (s : List Char) (a b : Nat) : List Char :=
  (s.drop a).take (b - a)

/-- An entity span as built by the converter: `(start, end, label)`,
modelling the Python tuple
`(current_entity_offset, current_entity_offset + len(current_entity), current_tag)`. -/
abbrev Ent := Nat × Nat × List Char

/-- A training instance in the spaCy format: the sentence text together with
its entity list, modelling the Python pair of the stripped sentence text and
the value stored under the `"entities"` key. -/
abbrev TrainInstance := List Char × List Ent

/-- The three ways `load_spacy_train_data_from_bio_dataset` treats an input
line (`data_conversion.py`, lines 46-60):
* `blank`: `len(line.strip()) == 0` - a sentence boundary;
* `skip`: nonblank but `' ' not in line.strip()` - silently skipped
  (lines 52-55: lines holding only a tag, or with a non-space separator);
* `pair token tag`: the token/tag split produced by
  `re.sub(r'(.+)\s+([-\w]+)', r'\1###\2', line.strip()).split('###')`. -/
inductive BioLine where
  | blank : BioLine
  | skip : BioLine
  | pair (token : List Char) (tag : List Char) : BioLine
deriving DecidableEq, Repr

/-- The token/tag split of a stripped line.  The greedy regex
`(.+)\s+([-\w]+)` takes the token to be everything before the last run of
whitespace and the tag to be the final whitespace-delimited field; this
function computes that split directly.  (It agrees with the Python regex on
every line whose final field consists of word characters and hyphens, which
covers all well-formed BIO lines.) -/
def splitLastWs (s : List Char) : List Char × List Char :=
  let r := s.reverse
  let tagRev := r.takeWhile (fun c => !c.isWhitespace)
  let tokenRev := (r.drop tagRev.length).dropWhile (fun c => c.isWhitespace)
  (tokenRev.reverse, tagRev.reverse)

/-- Classify one raw input line the way the converter's guards do
(`data_conversion.py`, lines 46, 52 and 57-60). -/
def classify (line : String) : BioLine :=
  let s := pyStripL line.data
  if s.length = 0 then .blank
  else if !(s.contains ' ') then .skip
  else
    let p := splitLastWs s
    .pair p.1 p.2

/-- The loop state of `load_spacy_train_data_from_bio_dataset`
(`data_conversion.py`, lines 38-44): the accumulated instances, the growing
sentence text, the entity list of the current sentence, and the
`current_entity` / `current_tag` / `current_entity_offset` accumulator. -/
structure ConvState where
  instances : List TrainInstance
  text : List Char
  anns : List Ent
  cur : List Char
  tag : List Char
  off : Nat
deriving DecidableEq, Repr

/-- The initial loop state (`data_conversion.py`, lines 38-44). -/
def initState : ConvState :=
  { instances := [], text := [], anns := [], cur := [], tag := [], off := 0 }

/-- One iteration of the converter's `for` loop
(`data_conversion.py`, lines 45-92), on one classified line:

* a blank line with nonempty accumulated text flushes the instance
  (lines 46-51) - note that `current_entity` / `current_tag` /
  `current_entity_offset` are NOT reset there;
* a blank line with empty text, or a separator-free line, is skipped
  (lines 52-55);
* otherwise `current_offset = len(train_instance_text)` is taken, the token
  plus a space is appended to the text (lines 58-62), an empty tag defaults
  to `'O'` (lines 65-67), and the tag prefix is dispatched (lines 69-92):
  `B` closes any open entity and opens a new one (the label is
  `tag.split('-')[1].strip()`, raising `IndexError` when the tag has no
  hyphen), `I` appends `' ' + token` to the open entity, `O` closes any open
  entity, and any other prefix raises (line 92). -/
def step (s : ConvState) (l : BioLine) : Except (List Char) ConvState :=
  match l with
  | .blank =>
    if (pyStripL s.text).length > 0 then
      .ok { s with instances := s.instances ++ [(pyStripL s.text, s.anns)],
                   text := [], anns := [] }
    else .ok s
  | .skip => .ok s
  | .pair token tag0 =>
    let off0 := s.text.length
    let text1 := s.text ++ token ++ [' ']
    let tag1 := if (pyStripL tag0).isEmpty then ['O'] else tag0
    if pyStartswith 'B' tag1 then
      match pySplitOn '-' tag1 with
      | _ :: piece :: _ =>
        let anns1 := if (pyStripL s.cur).length > 0
          then s.anns ++ [(s.off, s.off + s.cur.length, s.tag)]
          else s.anns
        .ok { s with text := text1, anns := anns1, cur := pyStripL token,
                     tag := pyStripL piece, off := off0 }
      | _ => .error ("list index out of range").data
    else if pyStartswith 'I' tag1 then
      .ok { s with text := text1, cur := s.cur ++ [' '] ++ token }
    else if pyStartswith 'O' tag1 then
      if (pyStripL s.cur).length > 0 then
        .ok { s with text := text1,
                     anns := s.anns ++ [(s.off, s.off + s.cur.length, s.tag)],
                     cur := [], tag := [] }
      else .ok { s with text := text1 }
    else .error tag1

/-- The converter's `for` loop over all lines (`data_conversion.py`,
lines 45-92), propagating a raised exception. -/
def processLines (s : ConvState) : List BioLine → Except (List Char) ConvState
  | [] => .ok s
  | l :: rest =>
    match step s l with
    | .ok s1 => processLines s1 rest
    | .error e => .error e

/-- The entity filter inside `remove_overlapping_entities`
(`data_conversion.py`, lines 105-117), translated index for index: walk
`i in range(len(entities))`, skip the last index, and keep `entities[i]`
exactly when `entities[i][1] < entities[i+1][0]`.  (The `i += 1` in the
source has no effect on a Python `range` loop.) -/
def remainingEntitiesIdx (ents : List Ent) : List Ent :=
  (List.range ents.length).filterMap fun i =>
    if i + 1 < ents.length ∧ (ents.getD i (0, 0, [])).2.1 < (ents.getD (i + 1) (0, 0, [])).1
    then some (ents.getD i (0, 0, [])) else none

/-- The same filter written by structural recursion on the entity list:
each consecutive pair `(e1, e2)` keeps `e1` iff `e1.end < e2.start`, and the
last entity is never kept.  Proved equal to `remainingEntitiesIdx` in
`remainingEntitiesIdx_eq`. -/
def remainingEntities : List Ent → List Ent
  | e1 :: e2 :: rest =>
    (if e1.2.1 < e2.1 then [e1] else []) ++ remainingEntities (e2 :: rest)
  | _ => []

/-- Model of `remove_overlapping_entities` (`data_conversion.py`, lines 99-120):
replace every instance's entity list by the filtered list.  (The Python
code mutates the entity list of each instance in place and returns the same
instance list; this is its functional rendering.) -/
def remove_overlapping_entities (instances : List TrainInstance) : List TrainInstance :=
  instances.map fun inst => (inst.1, remainingEntitiesIdx inst.2)

/-- Model of `load_spacy_train_data_from_bio_dataset` on classified lines:
run the line loop from the initial state, then apply
`remove_overlapping_entities` (`data_conversion.py`, lines 95-96). -/
def loadB (ls : List BioLine) : Except (List Char) (List TrainInstance) :=
  match processLines initState ls with
  | .ok s => .ok (remove_overlapping_entities s.instances)
  | .error e => .error e

/-- Model of `load_spacy_train_data_from_bio_dataset` (`data_conversion.py`,
lines 26-96) on raw input lines. -/
def load_spacy_train_data_from_bio_dataset (lines : List String) :
    Except (List Char) (List TrainInstance) :=
  loadB (lines.map classify)

/-- The specification's overlap rule, written from the spec's own words
(spec section 4.2): walk the pairs `(entities[i], entities[i+1])` and keep
`entities[i]` only if `entities[i].end < entities[i+1].start`.  Used to
compare the source translation against the specified rule. -/
def keptBySpec (ents : List Ent) : List Ent :=
  (ents.zip ents.tail).filterMap fun p => if p.1.2.1 < p.2.1 then some p.1 else none

/-- A well-formed token: nonempty and free of whitespace. -/
def wfTokenB (t : List Char) : Bool := !t.isEmpty && t.all fun c => !c.isWhitespace

/-- A well-formed BIO tag as the claims describe it: `O`, `B-<LABEL>`,
`I-<LABEL>` (nonempty label), or empty. -/
def wfTagB (t : List Char) : Bool :=
  t.isEmpty || t == ['O'] ||
  (match t with
   | c :: m :: lab => (c == 'B' || c == 'I') && m == '-' && !lab.isEmpty
   | _ => false)

/-- A well-formed classified line: blank or skipped lines are unrestricted,
a token/tag line has a well-formed token and tag. -/
def wfLineB : BioLine → Bool
  | .pair tok tag => wfTokenB tok && wfTagB tag
  | _ => true

/-- A token/tag line whose effective tag (after the empty-tag-to-`O` fix of
`data_conversion.py`, lines 65-67) starts with a letter outside `{B, I, O}`,
which makes the converter raise (`data_conversion.py`, line 92). -/
def isBadTagLine : BioLine → Bool
  | .pair _ tag =>
    let tag1 := if (pyStripL tag).isEmpty then ['O'] else tag
    !(pyStartswith 'B' tag1 || pyStartswith 'I' tag1 || pyStartswith 'O' tag1)
  | _ => false

/-- Invariant on an accumulated text buffer: it has no leading whitespace,
and (unless empty) stripping it just removes the single trailing space.
Established because the buffer is a concatenation of
`token + ' '` chunks with nonempty whitespace-free tokens. -/
def textOk (t : List Char) : Prop :=
  t.dropWhile Char.isWhitespace = t ∧ (t = [] ∨ pyStripL t = t.dropLast)

/-- A recorded entity has a nonempty span. -/
def entOk (e : Ent) : Prop := e.1 < e.2.1

/-- Invariant edge between consecutive recorded entities, relative to the
length `n` of the unstripped text buffer: the later entity starts at a fresh
in-buffer offset (`e2.start + 2 ≤ n`), or it starts no later than the
earlier entity ends (the stale-offset case, in which the pair filter can
never keep `e1`). -/
def chainEdge (n : Nat) (e1 e2 : Ent) : Prop := e2.1 + 2 ≤ n ∨ e2.1 ≤ e1.2.1

/-- Invariant carried by every flushed instance: nonempty spans and the
consecutive-entity edges relative to the stripped text length plus one
(the length of the unstripped buffer it was flushed from). -/
def instOk (p : TrainInstance) : Prop :=
  (∀ e ∈ p.2, entOk e) ∧ List.Chain' (chainEdge (p.1.length + 1)) p.2

/-- Invariant on the open-entity offset: when the next entity is recorded at
`s.off`, it keeps the chain edge - either the entity list is empty, or the
offset is fresh in the buffer, or it is no later than the end of the last
recorded entity. -/
def offOk (s : ConvState) : Prop :=
  s.anns = [] ∨ s.off + 2 ≤ s.text.length ∨
    ∃ e, s.anns.getLast? = some e ∧ s.off ≤ e.2.1

/-- The full loop invariant of the converter. -/
def convInv (s : ConvState) : Prop :=
  (∀ p ∈ s.instances, instOk p) ∧ (∀ e ∈ s.anns, entOk e) ∧
    List.Chain' (chainEdge s.text.length) s.anns ∧ offOk s ∧ textOk s.text

/-- Model of `EvaluationScores` (`evaluation.py`, lines 5-13), with Python floats
modelled as rationals. -/
structure EvaluationScores where
  precision : ℚ
  «recall» : ℚ
  fscore : ℚ
deriving DecidableEq, Repr

/-- Model of `convert_predictions_to_str_set` (`evaluation.py`, lines 48-50): the set
of `x.text + "_" + x.label_` strings.  A prediction is modelled as the pair
of its surface text and its label. -/
def convert_predictions_to_str_set (predictions : List (List Char × List Char)) :
    Finset (List Char) :=
  (predictions.map fun x => x.1 ++ ['_'] ++ x.2).toFinset

/-- Model of `convert_gold_to_str_set` (`evaluation.py`, lines 53-55): the set of
`text[start:end] + "_" + label` strings over the instance's entity list. -/
def convert_gold_to_str_set (test_instance : TrainInstance) : Finset (List Char) :=
  (test_instance.2.map fun x =>
    pySlice test_instance.1 x.1 x.2.1 ++ ['_'] ++ x.2.2).toFinset

/-- Model of `compare_predictions_and_gold_labels` (`evaluation.py`, lines 58-69):
count predicted strings inside/outside the gold set and gold strings missing
from the prediction set. -/
def compare_predictions_and_gold_labels (predictions_set golds_set : Finset (List Char)) :
    Nat × Nat × Nat :=
  ((predictions_set.filter fun p => p ∈ golds_set).card,
   (predictions_set.filter fun p => p ∉ golds_set).card,
   (golds_set.filter fun g => g ∉ predictions_set).card)

/-- The per-instance `(tp, fp, fn)` triple computed inside the loop of
`evaluate` (`evaluation.py`, lines 27-33), with the external model call
`nlp(text).ents` abstracted as the function `nlp`. -/
def instanceCounts (nlp : List Char → List (List Char × List Char))
    (inst : TrainInstance) : Nat × Nat × Nat :=
  compare_predictions_and_gold_labels
    (convert_predictions_to_str_set (nlp inst.1))
    (convert_gold_to_str_set inst)

/-- Model of `evaluate` (`evaluation.py`, lines 16-45): pool `(tp, fp, fn)` over all
instances, then compute precision, recall and F-score with a zero result
whenever the corresponding denominator is not positive. -/
def evaluate (test_instances : List TrainInstance)
    (nlp : List Char → List (List Char × List Char)) : EvaluationScores :=
  let c := test_instances.foldl
    (fun acc inst =>
      let t := instanceCounts nlp inst
      (acc.1 + t.1, acc.2.1 + t.2.1, acc.2.2 + t.2.2))
    (0, 0, 0)
  let precision : ℚ :=
    if c.1 + c.2.1 > 0 then (c.1 : ℚ) / ((c.1 : ℚ) + (c.2.1 : ℚ)) else 0
  let «recall» : ℚ :=
    if c.1 + c.2.2 > 0 then (c.1 : ℚ) / ((c.1 : ℚ) + (c.2.2 : ℚ)) else 0
  let fscore : ℚ :=
    if precision + «recall» > 0 then 2 * (precision * «recall») / (precision + «recall»)
    else 0
  { precision := precision, «recall» := «recall», fscore := fscore }

/-- The pooled true-positive count over all instances. -/
def overallTp (test_instances : List TrainInstance)
    (nlp : List Char → List (List Char × List Char)) : Nat :=
  (test_instances.map fun i => (instanceCounts nlp i).1).sum

/-- The pooled false-positive count over all instances. -/
def overallFp (test_instances : List TrainInstance)
    (nlp : List Char → List (List Char × List Char)) : Nat :=
  (test_instances.map fun i => (instanceCounts nlp i).2.1).sum

/-- The pooled false-negative count over all instances. -/
def overallFn (test_instances : List TrainInstance)
    (nlp : List Char → List (List Char × List Char)) : Nat :=
  (test_instances.map fun i => (instanceCounts nlp i).2.2).sum

/-- The checkpoint decisions of the epoch loop of `train_nerc_model`
(`spacy_nerc_training.py`, lines 35-74), with the external training and
evaluation steps abstracted: the input list holds the F-score that
`evaluate` returns after each epoch, `best` is `best_fscore` and `epoch` is
the 0-based epoch counter of `for epoch in ...range(num_epochs)`.  An epoch
index is emitted exactly when `current_fscore > best_fscore` makes the loop
call `_save_model`, and `best_fscore` is updated on each save. -/
def trainLoop : List ℚ → ℚ → Nat → List Nat
  | [], _, _ => []
  | f :: rest, best, epoch =>
    if f > best then epoch :: trainLoop rest f (epoch + 1)
    else trainLoop rest best (epoch + 1)

/-- The list of (0-based) epochs after which `train_nerc_model` saves a
checkpoint, given the per-epoch F-scores; `best_fscore` starts at `0.0`
(`spacy_nerc_training.py`, line 35). -/
def train_nerc_checkpoint_epochs (epochFscores : List ℚ) : List Nat :=
  trainLoop epochFscores 0 0

lemma remainingEntitiesIdx_cons_cons (e1 e2 : Ent) (rest : List Ent) :
    remainingEntitiesIdx (e1 :: e2 :: rest) =
      (if e1.2.1 < e2.1 then [e1] else []) ++ remainingEntitiesIdx (e2 :: rest) := by
  unfold remainingEntitiesIdx
  rw [show (e1 :: e2 :: rest).length = (e2 :: rest).length + 1 from rfl,
      List.range_succ_eq_map, List.filterMap_cons, List.filterMap_map]
  have htail : List.filterMap
      ((fun i => if i + 1 < (e2 :: rest).length + 1 ∧
          ((e1 :: e2 :: rest).getD i (0, 0, [])).2.1 <
            ((e1 :: e2 :: rest).getD (i + 1) (0, 0, [])).1
        then some ((e1 :: e2 :: rest).getD i (0, 0, [])) else none) ∘ Nat.succ)
      (List.range (e2 :: rest).length) =
      List.filterMap
      (fun i => if i + 1 < (e2 :: rest).length ∧
          ((e2 :: rest).getD i (0, 0, [])).2.1 <
            ((e2 :: rest).getD (i + 1) (0, 0, [])).1
        then some ((e2 :: rest).getD i (0, 0, [])) else none)
      (List.range (e2 :: rest).length) := by
    apply List.filterMap_congr
    intro i _
    simp only [Function.comp, List.getD_cons_succ, Nat.succ_eq_add_one]
    congr 1
    simp [Nat.add_lt_add_iff_right]
  rw [htail]
  by_cases hc : e1.2.1 < e2.1
  · simp [hc]
  · simp [hc]

theorem remainingEntitiesIdx_eq :
    ∀ ents, remainingEntitiesIdx ents = remainingEntities ents
  | [] => rfl
  | [e] => by simp [remainingEntitiesIdx, remainingEntities]
  | e1 :: e2 :: rest => by
    rw [remainingEntitiesIdx_cons_cons, remainingEntitiesIdx_eq (e2 :: rest)]
    rfl

lemma keptBySpec_eq : ∀ ents, keptBySpec ents = remainingEntities ents
  | [] => rfl
  | [e] => rfl
  | e1 :: e2 :: rest => by
    have ih := keptBySpec_eq (e2 :: rest)
    simp only [keptBySpec, List.tail_cons] at ih ⊢
    by_cases hc : e1.2.1 < e2.1 <;>
      simp [remainingEntities, hc, List.zip_cons_cons, List.filterMap_cons, ih]

lemma remainingEntities_sublist_dropLast :
    ∀ ents, List.Sublist (remainingEntities ents) ents.dropLast
  | [] => by simp [remainingEntities]
  | [e] => by simp [remainingEntities]
  | e1 :: e2 :: rest => by
    have ih := remainingEntities_sublist_dropLast (e2 :: rest)
    rw [show (e1 :: e2 :: rest).dropLast = e1 :: (e2 :: rest).dropLast from rfl]
    by_cases hc : e1.2.1 < e2.1
    · simpa [remainingEntities, hc] using ih.cons₂ e1
    · simpa [remainingEntities, hc] using ih.cons e1

lemma remainingEntities_subset (ents : List Ent) :
    ∀ x ∈ remainingEntities ents, x ∈ ents := by
  intro x hx
  exact (List.dropLast_sublist ents).subset
    ((remainingEntities_sublist_dropLast ents).subset hx)

lemma remainingEntities_pairwise :
    ∀ ents : List Ent, List.Pairwise (fun a b => a.1 ≤ b.1) ents →
      List.Pairwise (fun a b => a.2.1 < b.1) (remainingEntities ents)
  | [], _ => by simp [remainingEntities]
  | [e], _ => by simp [remainingEntities]
  | e1 :: e2 :: rest, hp => by
    have hp2 : List.Pairwise (fun a b : Ent => a.1 ≤ b.1) (e2 :: rest) :=
      (List.pairwise_cons.mp hp).2
    have ih := remainingEntities_pairwise (e2 :: rest) hp2
    by_cases hc : e1.2.1 < e2.1
    · rw [show remainingEntities (e1 :: e2 :: rest) =
          e1 :: remainingEntities (e2 :: rest) from by simp [remainingEntities, hc]]
      refine List.Pairwise.cons ?_ ih
      intro x hx
      have hxm : x ∈ e2 :: rest := remainingEntities_subset (e2 :: rest) x hx
      rcases List.mem_cons.mp hxm with h | h
      · exact h ▸ hc
      · exact lt_of_lt_of_le hc ((List.pairwise_cons.mp hp2).1 x h)
    · simpa [remainingEntities, hc] using ih

lemma ws_head_false_of_dropWhile_self {t : List Char} {a : Char}
    (h : (a :: t).dropWhile Char.isWhitespace = a :: t) :
    Char.isWhitespace a = false := by
  by_cases ha : Char.isWhitespace a
  · rw [List.dropWhile_cons, if_pos ha] at h
    have hlen := congrArg List.length h
    have hle := (List.dropWhile_sublist (l := t) (p := Char.isWhitespace)).length_le
    simp at hlen
    omega
  · simpa using ha

lemma dropWhile_ws_append_self {t tok : List Char}
    (ht : t.dropWhile Char.isWhitespace = t) (hne : tok ≠ [])
    (hws : ∀ c ∈ tok, c.isWhitespace = false) :
    (t ++ tok ++ [' ']).dropWhile Char.isWhitespace = t ++ tok ++ [' '] := by
  cases t with
  | nil =>
    cases tok with
    | nil => exact absurd rfl hne
    | cons c tk =>
      simp only [List.nil_append, List.cons_append]
      rw [List.dropWhile_cons, if_neg (by simp [hws c (by simp)])]
  | cons a t1 =>
    have ha := ws_head_false_of_dropWhile_self ht
    simp only [List.cons_append]
    rw [List.dropWhile_cons, if_neg (by simp [ha])]

lemma textOk_append {t tok : List Char} (h : textOk t) (hne : tok ≠ [])
    (hws : ∀ c ∈ tok, c.isWhitespace = false) :
    textOk (t ++ tok ++ [' ']) := by
  constructor
  · exact dropWhile_ws_append_self h.1 hne hws
  · right
    unfold pyStripL
    rw [dropWhile_ws_append_self h.1 hne hws]
    have hrev : (t ++ tok ++ [' ']).reverse = ' ' :: (tok.reverse ++ t.reverse) := by
      simp
    rw [hrev, List.dropWhile_cons, if_pos (by simp)]
    rw [show (tok.reverse ++ t.reverse).dropWhile Char.isWhitespace =
          tok.reverse ++ t.reverse from ?_]
    · rw [List.reverse_append, List.reverse_reverse, List.reverse_reverse,
          show t ++ tok ++ [' '] = (t ++ tok) ++ [' '] from by simp,
          List.dropLast_concat]
    · cases hrt : tok.reverse with
      | nil => exact absurd (by simpa using hrt) hne
      | cons d y =>
        have hd : d ∈ tok := by
          have : d ∈ tok.reverse := by rw [hrt]; simp
          simpa using this
        rw [List.cons_append, List.dropWhile_cons, if_neg (by simp [hws d hd])]

lemma textOk_nil : textOk [] := ⟨rfl, Or.inl rfl⟩

lemma pyStripL_length_textOk {t : List Char} (h : textOk t) (hne : t ≠ []) :
    (pyStripL t).length + 1 = t.length := by
  rcases h.2 with h2 | h2
  · exact absurd h2 hne
  · rw [h2, List.length_dropLast]
    have : 0 < t.length := List.length_pos.mpr hne
    omega

lemma chainEdge_mono {n m : Nat} (h : n ≤ m) {e1 e2 : Ent} :
    chainEdge n e1 e2 → chainEdge m e1 e2 := by
  intro hc
  rcases hc with hc | hc
  · exact Or.inl (le_trans hc h)
  · exact Or.inr hc

lemma chain_append_record {n m : Nat} {anns : List Ent} {e : Ent}
    (hc : List.Chain' (chainEdge n) anns) (hnm : n ≤ m)
    (hedge : anns = [] ∨ e.1 + 2 ≤ m ∨
      ∃ last, anns.getLast? = some last ∧ e.1 ≤ last.2.1) :
    List.Chain' (chainEdge m) (anns ++ [e]) := by
  rw [List.chain'_append]
  refine ⟨hc.imp (fun a b => chainEdge_mono hnm), List.chain'_singleton _, ?_⟩
  intro x hx y hy
  simp only [List.head?_cons, Option.mem_def, Option.some.injEq] at hy
  subst hy
  rcases hedge with h | h | h
  · subst h
    simp at hx
  · exact Or.inl h
  · rcases h with ⟨last, hlast, hle⟩
    rw [Option.mem_def, hlast] at hx
    injection hx with hx
    subst hx
    exact Or.inr hle

lemma pyStripL_nil : pyStripL [] = [] := rfl

lemma ne_nil_of_pyStripL_pos {l : List Char} (h : 0 < (pyStripL l).length) :
    l ≠ [] := by
  intro hl
  subst hl
  simp [pyStripL_nil] at h

lemma convInv_init : convInv initState := by
  refine ⟨by simp [initState], by simp [initState], ?_, ?_, ?_⟩
  · simp [initState]
  · exact Or.inl rfl
  · exact textOk_nil

lemma step_preserves_inv {s s1 : ConvState} {l : BioLine}
    (hinv : convInv s) (hwf : wfLineB l = true) (hs : step s l = .ok s1) :
    convInv s1 := by
  obtain ⟨hins, hent, hchain, hoff, htext⟩ := hinv
  cases l with
  | blank =>
    simp only [step] at hs
    by_cases hflush : (pyStripL s.text).length > 0
    · rw [if_pos hflush] at hs
      injection hs with hs1
      subst hs1
      refine ⟨?_, by simp, by simp, Or.inl rfl, textOk_nil⟩
      intro p hp
      rw [List.mem_append] at hp
      rcases hp with hp | hp
      · exact hins p hp
      · simp only [List.mem_singleton] at hp
        subst hp
        have hne : s.text ≠ [] := ne_nil_of_pyStripL_pos hflush
        refine ⟨hent, ?_⟩
        show List.Chain' (chainEdge ((pyStripL s.text).length + 1)) s.anns
        rw [pyStripL_length_textOk htext hne]
        exact hchain
    · rw [if_neg hflush] at hs
      injection hs with hs1
      subst hs1
      exact ⟨hins, hent, hchain, hoff, htext⟩
  | skip =>
    simp only [step] at hs
    injection hs with hs1
    subst hs1
    exact ⟨hins, hent, hchain, hoff, htext⟩
  | pair token tag0 =>
    simp only [wfLineB] at hwf
    rw [Bool.and_eq_true] at hwf
    obtain ⟨htokb, htagb⟩ := hwf
    rw [wfTokenB, Bool.and_eq_true] at htokb
    obtain ⟨htokne0, htokall⟩ := htokb
    have htokne : token ≠ [] := by
      intro h
      subst h
      simp at htokne0
    have htokws : ∀ c ∈ token, c.isWhitespace = false := by
      intro c hc
      have := (List.all_eq_true.mp htokall) c hc
      simpa using this
    have htext1 : textOk (s.text ++ token ++ [' ']) :=
      textOk_append htext htokne htokws
    have htokpos : 0 < token.length := List.length_pos.mpr htokne
    have hlen1 : (s.text ++ token ++ [' ']).length
        = s.text.length + token.length + 1 := by
      simp
      omega
    have hlenle : s.text.length ≤ (s.text ++ token ++ [' ']).length := by
      rw [hlen1]; omega
    simp only [step] at hs
    by_cases hB : pyStartswith 'B' (if (pyStripL tag0).isEmpty then ['O'] else tag0)
    · rw [if_pos hB] at hs
      rcases hsplit : pySplitOn '-' (if (pyStripL tag0).isEmpty then ['O'] else tag0)
        with _ | ⟨p0, rest0⟩
      · rw [hsplit] at hs
        cases hs
      · rcases rest0 with _ | ⟨piece, rest1⟩
        · rw [hsplit] at hs
          cases hs
        · rw [hsplit] at hs
          injection hs with hs1
          subst hs1
          by_cases hrec : (pyStripL s.cur).length > 0
          · rw [if_pos hrec]
            have hcur : 0 < s.cur.length :=
              List.length_pos.mpr (ne_nil_of_pyStripL_pos hrec)
            refine ⟨hins, ?_, ?_, ?_, htext1⟩
            · intro e he
              rw [List.mem_append] at he
              rcases he with he | he
              · exact hent e he
              · simp only [List.mem_singleton] at he
                subst he
                show s.off < s.off + s.cur.length
                omega
            · refine chain_append_record hchain hlenle ?_
              rcases hoff with h | h | h
              · exact Or.inl h
              · exact Or.inr (Or.inl (le_trans h hlenle))
              · exact Or.inr (Or.inr h)
            · refine Or.inr (Or.inl ?_)
              show s.text.length + 2 ≤ (s.text ++ token ++ [' ']).length
              rw [hlen1]
              omega
          · rw [if_neg hrec]
            refine ⟨hins, hent, hchain.imp (fun a b => chainEdge_mono hlenle), ?_, htext1⟩
            refine Or.inr (Or.inl ?_)
            show s.text.length + 2 ≤ (s.text ++ token ++ [' ']).length
            rw [hlen1]
            omega
    · rw [if_neg hB] at hs
      by_cases hI : pyStartswith 'I' (if (pyStripL tag0).isEmpty then ['O'] else tag0)
      · rw [if_pos hI] at hs
        injection hs with hs1
        subst hs1
        refine ⟨hins, hent, hchain.imp (fun a b => chainEdge_mono hlenle), ?_, htext1⟩
        rcases hoff with h | h | h
        · exact Or.inl h
        · exact Or.inr (Or.inl (le_trans h hlenle))
        · exact Or.inr (Or.inr h)
      · rw [if_neg hI] at hs
        by_cases hO : pyStartswith 'O' (if (pyStripL tag0).isEmpty then ['O'] else tag0)
        · rw [if_pos hO] at hs
          by_cases hrec : (pyStripL s.cur).length > 0
          · rw [if_pos hrec] at hs
            injection hs with hs1
            subst hs1
            have hcur : 0 < s.cur.length :=
              List.length_pos.mpr (ne_nil_of_pyStripL_pos hrec)
            refine ⟨hins, ?_, ?_, ?_, htext1⟩
            · intro e he
              rw [List.mem_append] at he
              rcases he with he | he
              · exact hent e he
              · simp only [List.mem_singleton] at he
                subst he
                show s.off < s.off + s.cur.length
                omega
            · refine chain_append_record hchain hlenle ?_
              rcases hoff with h | h | h
              · exact Or.inl h
              · exact Or.inr (Or.inl (le_trans h hlenle))
              · exact Or.inr (Or.inr h)
            · refine Or.inr (Or.inr ?_)
              refine ⟨(s.off, s.off + s.cur.length, s.tag), ?_, ?_⟩
              · show (s.anns ++ [(s.off, s.off + s.cur.length, s.tag)]).getLast? = _
                rw [List.getLast?_concat]
              · show s.off ≤ s.off + s.cur.length
                omega
          · rw [if_neg hrec] at hs
            injection hs with hs1
            subst hs1
            refine ⟨hins, hent, hchain.imp (fun a b => chainEdge_mono hlenle), ?_, htext1⟩
            rcases hoff with h | h | h
            · exact Or.inl h
            · exact Or.inr (Or.inl (le_trans h hlenle))
            · exact Or.inr (Or.inr h)
        · rw [if_neg hO] at hs
          cases hs

lemma processLines_inv :
    ∀ (ls : List BioLine) (s s1 : ConvState), convInv s →
      (∀ l ∈ ls, wfLineB l = true) → processLines s ls = .ok s1 → convInv s1
  | [], s, s1, hinv, _, hp => by
    simp only [processLines] at hp
    injection hp with h
    subst h
    exact hinv
  | l :: rest, s, s1, hinv, hwf, hp => by
    simp only [processLines] at hp
    rcases hstep : step s l with e | s2
    · rw [hstep] at hp
      cases hp
    · rw [hstep] at hp
      exact processLines_inv rest s2 s1
        (step_preserves_inv hinv (hwf l (List.mem_cons_self l rest)) hstep)
        (fun x hx => hwf x (List.mem_cons_of_mem l hx)) hp

lemma remaining_bounds :
    ∀ {L : Nat} (ents : List Ent), (∀ e ∈ ents, entOk e) →
      List.Chain' (chainEdge (L + 1)) ents →
      ∀ e ∈ remainingEntities ents, e.1 < e.2.1 ∧ e.2.1 ≤ L
  | _, [], _, _ => by simp [remainingEntities]
  | _, [e], _, _ => by simp [remainingEntities]
  | L, e1 :: e2 :: rest, hent, hchain => by
    rw [List.chain'_cons] at hchain
    have ih := remaining_bounds (L := L) (e2 :: rest)
      (fun e he => hent e (List.mem_cons_of_mem e1 he)) hchain.2
    intro e he
    by_cases hc : e1.2.1 < e2.1
    · rw [show remainingEntities (e1 :: e2 :: rest)
          = e1 :: remainingEntities (e2 :: rest) from by
            simp [remainingEntities, hc]] at he
      rcases List.mem_cons.mp he with h | h
      · subst h
        refine ⟨hent e (List.mem_cons_self e _), ?_⟩
        rcases hchain.1 with hed | hed
        · omega
        · omega
      · exact ih e h
    · rw [show remainingEntities (e1 :: e2 :: rest)
          = remainingEntities (e2 :: rest) from by
            simp [remainingEntities, hc]] at he
      exact ih e he

lemma loadB_bounds (ls : List BioLine) (hwf : ∀ l ∈ ls, wfLineB l = true)
    (out : List TrainInstance) (hok : loadB ls = .ok out) :
    ∀ inst ∈ out, ∀ e ∈ inst.2, e.1 < e.2.1 ∧ e.2.1 ≤ inst.1.length := by
  unfold loadB at hok
  rcases hproc : processLines initState ls with e | sf
  · rw [hproc] at hok
    cases hok
  · rw [hproc] at hok
    injection hok with hok
    subst hok
    have hinv := processLines_inv ls initState sf convInv_init hwf hproc
    intro inst hinst e he
    unfold remove_overlapping_entities at hinst
    rw [List.mem_map] at hinst
    obtain ⟨p, hpmem, hpe⟩ := hinst
    have hpok := hinv.1 p hpmem
    subst hpe
    rw [remainingEntitiesIdx_eq] at he
    exact remaining_bounds p.2 hpok.1 hpok.2 e he
lemma step_instances_of_nonblank {s s1 : ConvState} {l : BioLine}
    (hnb : l ≠ BioLine.blank) (hs : step s l = .ok s1) :
    s1.instances = s.instances := by
  cases l with
  | blank => exact absurd rfl hnb
  | skip =>
    simp only [step] at hs
    injection hs with h
    subst h
    rfl
  | pair token tag0 =>
    simp only [step] at hs
    repeat' split at hs
    all_goals cases hs
    all_goals rfl

lemma processLines_instances_of_nonblank :
    ∀ (ls : List BioLine) (s s1 : ConvState), (∀ l ∈ ls, l ≠ BioLine.blank) →
      processLines s ls = .ok s1 → s1.instances = s.instances
  | [], s, s1, _, hp => by
    simp only [processLines] at hp
    injection hp with h
    subst h
    rfl
  | l :: rest, s, s1, hnb, hp => by
    simp only [processLines] at hp
    rcases hstep : step s l with e | s2
    · rw [hstep] at hp
      cases hp
    · rw [hstep] at hp
      rw [processLines_instances_of_nonblank rest s2 s1
        (fun x hx => hnb x (List.mem_cons_of_mem l hx)) hp]
      exact step_instances_of_nonblank (hnb l (List.mem_cons_self l rest)) hstep

lemma processLines_append_ok :
    ∀ (a b : List BioLine) (s s2 : ConvState),
      processLines s (a ++ b) = .ok s2 →
      ∃ s1, processLines s a = .ok s1 ∧ processLines s1 b = .ok s2
  | [], b, s, s2, h => ⟨s, rfl, h⟩
  | l :: rest, b, s, s2, h => by
    rw [List.cons_append] at h
    simp only [processLines] at h ⊢
    rcases hstep : step s l with e | sx
    · rw [hstep] at h
      cases h
    · rw [hstep] at h
      exact processLines_append_ok rest b sx s2 h

lemma classify_ne_blank {l : String} (h : pyStripL l.data ≠ []) :
    classify l ≠ BioLine.blank := by
  unfold classify
  by_cases hz : (pyStripL l.data).length = 0
  · exact absurd (List.length_eq_zero.mp hz) h
  · rw [if_neg hz]
    by_cases hsp : (!((pyStripL l.data).contains ' ')) = true
    · rw [if_pos hsp]
      intro hc
      cases hc
    · rw [if_neg hsp]
      intro hc
      cases hc

lemma step_badTag {s : ConvState} {l : BioLine} (h : isBadTagLine l = true) :
    ∃ m, step s l = .error m := by
  cases l with
  | blank => simp [isBadTagLine] at h
  | skip => simp [isBadTagLine] at h
  | pair token tag0 =>
    simp only [isBadTagLine] at h
    rw [Bool.not_eq_true'] at h
    rw [Bool.or_eq_false_iff] at h
    obtain ⟨hBI, hO⟩ := h
    rw [Bool.or_eq_false_iff] at hBI
    obtain ⟨hB, hI⟩ := hBI
    refine ⟨if (pyStripL tag0).isEmpty then ['O'] else tag0, ?_⟩
    simp only [step]
    rw [if_neg (by simpa using hB), if_neg (by simpa using hI), if_neg (by simpa using hO)]

lemma processLines_bad :
    ∀ (ls : List BioLine) (s : ConvState), (∃ l ∈ ls, isBadTagLine l = true) →
      ∃ m, processLines s ls = .error m
  | [], s, h => by simp at h
  | l :: rest, s, h => by
    simp only [processLines]
    rcases hstep : step s l with e | s2
    · exact ⟨e, rfl⟩
    · rcases h with ⟨x, hx, hbad⟩
      rcases List.mem_cons.mp hx with h1 | h1
      · subst h1
        obtain ⟨m, hm⟩ := step_badTag (s := s) hbad
        rw [hstep] at hm
        cases hm
      · exact processLines_bad rest s2 ⟨x, h1, hbad⟩

lemma evaluate_counts :
    ∀ (insts : List TrainInstance) (nlp : List Char → List (List Char × List Char))
      (a b c : Nat),
      insts.foldl (fun acc inst =>
        let t := instanceCounts nlp inst
        (acc.1 + t.1, acc.2.1 + t.2.1, acc.2.2 + t.2.2)) (a, b, c)
      = (a + overallTp insts nlp, b + overallFp insts nlp, c + overallFn insts nlp)
  | [], nlp, a, b, c => by simp [overallTp, overallFp, overallFn]
  | inst :: rest, nlp, a, b, c => by
    rw [List.foldl_cons, evaluate_counts rest nlp]
    simp only [overallTp, overallFp, overallFn, List.map_cons, List.sum_cons,
      Prod.mk.injEq]
    refine ⟨by omega, by omega, by omega⟩

lemma instanceCounts_empty {nlp : List Char → List (List Char × List Char)}
    {inst : TrainInstance} (hp : nlp inst.1 = []) (hg : inst.2 = []) :
    instanceCounts nlp inst = (0, 0, 0) := by
  unfold instanceCounts compare_predictions_and_gold_labels
    convert_predictions_to_str_set convert_gold_to_str_set
  rw [hp, hg]
  simp

lemma trainLoop_mem :
    ∀ (fs : List ℚ) (best : ℚ) (k i : Nat),
      i ∈ trainLoop fs best k ↔
        k ≤ i ∧ i - k < fs.length ∧
          (fs.take (i - k)).foldl max best < fs.getD (i - k) 0
  | [], best, k, i => by simp [trainLoop]
  | f :: rest, best, k, i => by
    have ih := trainLoop_mem rest
    rw [show trainLoop (f :: rest) best k
        = if f > best then k :: trainLoop rest f (k + 1)
          else trainLoop rest best (k + 1) from rfl]
    by_cases hc : f > best
    · rw [if_pos hc]
      rw [List.mem_cons, ih f (k + 1) i]
      constructor
      · rintro (h | ⟨h1, h2, h3⟩)
        · subst h
          refine ⟨le_refl _, by simp, ?_⟩
          simpa [Nat.sub_self] using hc
        · have hik : i - k = (i - (k + 1)) + 1 := by omega
          refine ⟨by omega, by simp only [List.length_cons]; omega, ?_⟩
          rw [hik, List.take_succ_cons, List.foldl_cons, List.getD_cons_succ,
              max_eq_right (le_of_lt hc)]
          exact h3
      · rintro ⟨h1, h2, h3⟩
        rcases Nat.eq_or_lt_of_le h1 with he | hlt
        · exact Or.inl he.symm
        · right
          have hik : i - k = (i - (k + 1)) + 1 := by omega
          rw [hik, List.take_succ_cons, List.foldl_cons, List.getD_cons_succ,
              max_eq_right (le_of_lt hc)] at h3
          refine ⟨by omega, by simp only [List.length_cons] at h2; omega, h3⟩
    · rw [if_neg hc]
      rw [ih best (k + 1) i]
      have hbf : max best f = best := max_eq_left (le_of_not_lt hc)
      constructor
      · rintro ⟨h1, h2, h3⟩
        have hik : i - k = (i - (k + 1)) + 1 := by omega
        refine ⟨by omega, by simp only [List.length_cons]; omega, ?_⟩
        rw [hik, List.take_succ_cons, List.foldl_cons, List.getD_cons_succ, hbf]
        exact h3
      · rintro ⟨h1, h2, h3⟩
        rcases Nat.eq_or_lt_of_le h1 with he | hlt
        · subst he
          simp only [Nat.sub_self, List.take_zero, List.foldl_nil, List.getD_cons_zero] at h3
          exact absurd h3 hc
        · have hik : i - k = (i - (k + 1)) + 1 := by omega
          rw [hik, List.take_succ_cons, List.foldl_cons, List.getD_cons_succ, hbf] at h3
          refine ⟨by omega, by simp only [List.length_cons] at h2; omega, h3⟩

/-- C1 counterexample: the claim says the four lines yield exactly one
instance, but the converter yields no instance at all (there is no blank
line to flush the sentence). -/
theorem c1_counterexample :
    load_spacy_train_data_from_bio_dataset
      [("Shaka B-PER"), ("Khan I-PER"), ("is O"), ("here O")] ≠
      Except.ok [(("Shaka Khan is here").data, [(0, 10, ("PER").data)])] := by
  intro h
  rw [show load_spacy_train_data_from_bio_dataset
      [("Shaka B-PER"), ("Khan I-PER"), ("is O"), ("here O")]
      = Except.ok [] from rfl] at h
  injection h with h1
  exact List.cons_ne_nil _ _ h1.symm

/-- C1 (amended): converting the four lines yields no training instance,
because the sentence is never flushed without a trailing blank line; and
even with a trailing blank line added, the pipeline yields the single
instance with text "Shaka Khan is here" and an EMPTY entity list, because
`remove_overlapping_entities` drops the lone entity `(0, 10, "PER")`. -/
theorem c1_theorem :
    load_spacy_train_data_from_bio_dataset
      [("Shaka B-PER"), ("Khan I-PER"), ("is O"), ("here O")] = Except.ok [] ∧
    load_spacy_train_data_from_bio_dataset
      [("Shaka B-PER"), ("Khan I-PER"), ("is O"), ("here O"), ("")] =
      Except.ok [(("Shaka Khan is here").data, [])] :=
  ⟨rfl, rfl⟩

/-- C2 counterexample: an instance with exactly one entity does NOT keep its
entity list unchanged - the single entity is dropped. -/
theorem c2_counterexample :
    remove_overlapping_entities [(("a").data, [(0, 1, ("A").data)])] ≠
      [(("a").data, [(0, 1, ("A").data)])] := by
  decide

/-- C2 (amended): `remove_overlapping_entities` keeps entity `i` (for every
`i` strictly before the last index) exactly when
`entities[i].end < entities[i+1].start` - this is the pair-walk rule
`keptBySpec` - and the resulting list is always a sublist of the input
minus its last element, so the final entity of any instance holding ONE or
more entities is always dropped; only an instance with zero entities keeps
its (empty) list unchanged. -/
theorem c2_theorem :
    (∀ instances, remove_overlapping_entities instances
      = instances.map fun p => (p.1, keptBySpec p.2)) ∧
    (∀ ents : List Ent, List.Sublist (remainingEntitiesIdx ents) ents.dropLast) := by
  constructor
  · intro instances
    unfold remove_overlapping_entities
    apply List.map_congr_left
    intro p _
    rw [remainingEntitiesIdx_eq, keptBySpec_eq]
  · intro ents
    rw [remainingEntitiesIdx_eq]
    exact remainingEntities_sublist_dropLast ents

/-- C3 counterexample: on the non-overlapping list
`[(0, 5, "A"), (6, 10, "B")]` the resolver does NOT return the empty list. -/
theorem c3_counterexample :
    remove_overlapping_entities
      [(("0123456789").data, [(0, 5, ("A").data), (6, 10, ("B").data)])] ≠
      [(("0123456789").data, [])] := by
  decide

/-- C3 (amended): on the non-overlapping, ordered entity list
`[(0, 5, "A"), (6, 10, "B")]` the resolver returns `[(0, 5, "A")]`: the last
entity is always dropped, but the first is kept because `5 < 6`. -/
theorem c3_theorem :
    remove_overlapping_entities
      [(("0123456789").data, [(0, 5, ("A").data), (6, 10, ("B").data)])] =
      [(("0123456789").data, [(0, 5, ("A").data)])] := by
  decide

/-- C4: for every well-formed BIO input (each non-blank line is
`token<whitespace>tag` with a whitespace-free token and a tag in
`{O, B-<LABEL>, I-<LABEL>}` or empty), every entity span `(start, end,
label)` of every returned training instance satisfies
`start < end ≤ length of the instance text` (and `0 ≤ start` holds by the
`Nat` embedding: the converter computes offsets only from lengths). -/
theorem c4_theorem :
    ∀ lines : List String, (∀ l ∈ lines, wfLineB (classify l) = true) →
      ∀ out, load_spacy_train_data_from_bio_dataset lines = .ok out →
      ∀ inst ∈ out, ∀ e ∈ inst.2, e.1 < e.2.1 ∧ e.2.1 ≤ inst.1.length := by
  intro lines hwf out hok
  refine loadB_bounds (lines.map classify) ?_ out hok
  intro bl hbl
  rw [List.mem_map] at hbl
  obtain ⟨l, hl, he⟩ := hbl
  rw [← he]
  exact hwf l hl

/-- C4 witness: a concrete well-formed input, including an entity left open
across a sentence boundary, whose output spans are all in bounds. -/
theorem c4_witness :
    (∀ l ∈ ([("Ab B-PER"), (""), ("xxx O"), ("Paris B-LOC"), ("Q O"), ("")] :
        List String), wfLineB (classify l) = true) ∧
    ∀ inst ∈ [(("Ab").data, ([] : List Ent)),
              (("xxx Paris Q").data, [(0, 2, ("PER").data)])],
      ∀ e ∈ inst.2, e.1 < e.2.1 ∧ e.2.1 ≤ inst.1.length :=
  ⟨by decide, c4_theorem
    [("Ab B-PER"), (""), ("xxx O"), ("Paris B-LOC"), ("Q O"), ("")]
    (by decide) _ rfl⟩

/-- C5: for every instance whose entity list is sorted by start offset, the
entity list produced by `remove_overlapping_entities` is pairwise
non-overlapping: any entity occurring earlier in the kept list ends strictly
before any later one starts. -/
theorem c5_theorem :
    ∀ instances, (∀ inst ∈ instances,
        List.Pairwise (fun a b : Ent => a.1 ≤ b.1) inst.2) →
      ∀ inst ∈ remove_overlapping_entities instances,
        List.Pairwise (fun a b : Ent => a.2.1 < b.1) inst.2 := by
  intro instances h inst hinst
  unfold remove_overlapping_entities at hinst
  rw [List.mem_map] at hinst
  obtain ⟨p, hp, he⟩ := hinst
  rw [← he]
  show List.Pairwise _ (remainingEntitiesIdx p.2)
  rw [remainingEntitiesIdx_eq]
  exact remainingEntities_pairwise p.2 (h p hp)

/-- C5 witness: a concrete instance with a sorted entity list whose resolved
list is pairwise non-overlapping. -/
theorem c5_witness :
    (∀ inst ∈ [(("abcdefghij").data,
        [(0, 2, ("A").data), (4, 9, ("B").data), (7, 8, ("C").data)])],
      List.Pairwise (fun a b : Ent => a.1 ≤ b.1) inst.2) ∧
    ∀ inst ∈ remove_overlapping_entities [(("abcdefghij").data,
        [(0, 2, ("A").data), (4, 9, ("B").data), (7, 8, ("C").data)])],
      List.Pairwise (fun a b : Ent => a.2.1 < b.1) inst.2 :=
  ⟨by decide, c5_theorem _ (by decide)⟩

/-- C6 counterexample: the claim says an entity still open at a sentence
boundary never appears in any returned instance's entity list, but the
accumulator is not cleared at the boundary: the entity `(0, 2, "PER")`
opened by `Ab B-PER` before the blank line is later recorded into the
SECOND instance's entity list (with its stale offset) and survives the
overlap resolver. -/
theorem c6_counterexample :
    load_spacy_train_data_from_bio_dataset
        [("Ab B-PER"), (""), ("xxx O"), ("Paris B-LOC"), ("Q O"), ("")] =
      Except.ok [(("Ab").data, []),
                 (("xxx Paris Q").data, [(0, 2, ("PER").data)])] ∧
    ∃ inst ∈ [(("Ab").data, ([] : List Ent)),
              (("xxx Paris Q").data, [(0, 2, ("PER").data)])],
      (0, 2, ("PER").data) ∈ inst.2 :=
  ⟨rfl, by decide⟩

/-- C6 (amended): an entity still open at a sentence boundary is not
flushed into the instance completed at that boundary - the blank-line step
appends exactly the stripped text with the recorded entity list, resets only
the text and that list, and leaves the open-entity accumulator
(`current_entity` / `current_tag` / `current_entity_offset`) untouched.  At
the end of the input an open entity is never recorded (instances are only
appended at blank lines), but because the accumulator survives the
boundary, the open entity CAN later be recorded into a subsequent
instance's entity list. -/
theorem c6_theorem :
    ∀ s : ConvState, (pyStripL s.text).length > 0 →
      step s BioLine.blank =
        .ok { instances := s.instances ++ [(pyStripL s.text, s.anns)],
              text := [], anns := [], cur := s.cur, tag := s.tag, off := s.off } := by
  intro s h
  simp only [step]
  rw [if_pos h]

/-- C6 witness: the flush at a concrete state with an open entity keeps the
accumulator and does not record the open entity. -/
theorem c6_witness :
    (pyStripL ("Ab ").data).length > 0 ∧
    step { instances := [], text := ("Ab ").data, anns := [], cur := ("Ab").data,
           tag := ("PER").data, off := 0 } BioLine.blank =
      .ok { instances := [(("Ab").data, [])], text := [], anns := [],
            cur := ("Ab").data, tag := ("PER").data, off := 0 } :=
  ⟨by decide, c6_theorem
    { instances := [], text := ("Ab ").data, anns := [], cur := ("Ab").data,
      tag := ("PER").data, off := 0 } (by decide)⟩

/-- C7: `evaluate` returns micro-averaged scores - the `(tp, fp, fn)`
counts are pooled across all instances via the set-based
`"<surface_text>_<label>"` comparison, precision is `tp/(tp+fp)` (0 when the
denominator is 0), recall is `tp/(tp+fn)` (0 when the denominator is 0),
and the F-score is `2*precision*recall/(precision+recall)` (0 when the
denominator is 0); in particular, when every instance has empty prediction
and gold sets, all three scores are 0. -/
theorem c7_theorem :
    ∀ (test_instances : List TrainInstance)
      (nlp : List Char → List (List Char × List Char)),
      ((evaluate test_instances nlp).precision =
        if overallTp test_instances nlp + overallFp test_instances nlp > 0
        then (overallTp test_instances nlp : ℚ) /
          ((overallTp test_instances nlp : ℚ) + (overallFp test_instances nlp : ℚ))
        else 0) ∧
      ((evaluate test_instances nlp).recall =
        if overallTp test_instances nlp + overallFn test_instances nlp > 0
        then (overallTp test_instances nlp : ℚ) /
          ((overallTp test_instances nlp : ℚ) + (overallFn test_instances nlp : ℚ))
        else 0) ∧
      ((evaluate test_instances nlp).fscore =
        if (evaluate test_instances nlp).precision
            + (evaluate test_instances nlp).recall > 0
        then 2 * ((evaluate test_instances nlp).precision
            * (evaluate test_instances nlp).recall) /
          ((evaluate test_instances nlp).precision
            + (evaluate test_instances nlp).recall)
        else 0) ∧
      ((∀ inst ∈ test_instances, nlp inst.1 = [] ∧ inst.2 = []) →
        evaluate test_instances nlp = ⟨0, 0, 0⟩) := by
  intro insts nlp
  have hc := evaluate_counts insts nlp 0 0 0
  have heval : evaluate insts nlp =
      { precision :=
          if overallTp insts nlp + overallFp insts nlp > 0
          then (overallTp insts nlp : ℚ) /
            ((overallTp insts nlp : ℚ) + (overallFp insts nlp : ℚ))
          else 0,
        «recall» :=
          if overallTp insts nlp + overallFn insts nlp > 0
          then (overallTp insts nlp : ℚ) /
            ((overallTp insts nlp : ℚ) + (overallFn insts nlp : ℚ))
          else 0,
        fscore :=
          if (if overallTp insts nlp + overallFp insts nlp > 0
              then (overallTp insts nlp : ℚ) /
                ((overallTp insts nlp : ℚ) + (overallFp insts nlp : ℚ))
              else 0)
            + (if overallTp insts nlp + overallFn insts nlp > 0
              then (overallTp insts nlp : ℚ) /
                ((overallTp insts nlp : ℚ) + (overallFn insts nlp : ℚ))
              else 0) > 0
          then 2 * ((if overallTp insts nlp + overallFp insts nlp > 0
              then (overallTp insts nlp : ℚ) /
                ((overallTp insts nlp : ℚ) + (overallFp insts nlp : ℚ))
              else 0)
            * (if overallTp insts nlp + overallFn insts nlp > 0
              then (overallTp insts nlp : ℚ) /
                ((overallTp insts nlp : ℚ) + (overallFn insts nlp : ℚ))
              else 0)) /
            ((if overallTp insts nlp + overallFp insts nlp > 0
              then (overallTp insts nlp : ℚ) /
                ((overallTp insts nlp : ℚ) + (overallFp insts nlp : ℚ))
              else 0)
            + (if overallTp insts nlp + overallFn insts nlp > 0
              then (overallTp insts nlp : ℚ) /
                ((overallTp insts nlp : ℚ) + (overallFn insts nlp : ℚ))
              else 0))
          else 0 } := by
    unfold evaluate
    rw [hc]
    simp only [Nat.zero_add]
  refine ⟨by rw [heval], by rw [heval], by rw [heval], ?_⟩
  intro hemp
  have hz : ∀ inst ∈ insts, instanceCounts nlp inst = (0, 0, 0) :=
    fun inst hi => instanceCounts_empty (hemp inst hi).1 (hemp inst hi).2
  have htp : overallTp insts nlp = 0 := by
    unfold overallTp
    apply List.sum_eq_zero
    intro x hx
    rw [List.mem_map] at hx
    obtain ⟨inst, hi, hxe⟩ := hx
    rw [← hxe, hz inst hi]
  have hfp : overallFp insts nlp = 0 := by
    unfold overallFp
    apply List.sum_eq_zero
    intro x hx
    rw [List.mem_map] at hx
    obtain ⟨inst, hi, hxe⟩ := hx
    rw [← hxe, hz inst hi]
  have hfn : overallFn insts nlp = 0 := by
    unfold overallFn
    apply List.sum_eq_zero
    intro x hx
    rw [List.mem_map] at hx
    obtain ⟨inst, hi, hxe⟩ := hx
    rw [← hxe, hz inst hi]
  rw [heval, htp, hfp, hfn]
  simp

/-- C7 witness: on one instance with empty prediction and gold sets, all
three scores are 0. -/
theorem c7_witness :
    evaluate [(("x").data, [])] (fun _ => []) = ⟨0, 0, 0⟩ :=
  (c7_theorem [(("x").data, [])] (fun _ => [])).2.2.2 (by simp)

/-- C8: a checkpoint is saved after (0-based) epoch `i` if and only if that
epoch's F-score strictly exceeds the best F-score seen so far - the maximum
of the initial `0.0` and all earlier epochs' scores, since the best is
updated on each save; in particular, for the F-score sequence
`[0.5, 0.5, 0.6, 0.4]` checkpoints are written only after the first and
third epochs (indices 0 and 2): the tie at the second epoch and the drop at
the fourth trigger no save. -/
theorem c8_theorem :
    train_nerc_checkpoint_epochs [(1 : ℚ)/2, 1/2, 3/5, 2/5] = [0, 2] ∧
    ∀ (epochFscores : List ℚ) (i : Nat),
      i ∈ train_nerc_checkpoint_epochs epochFscores ↔
        i < epochFscores.length ∧
          (epochFscores.take i).foldl max 0 < epochFscores.getD i 0 := by
  constructor
  · norm_num [train_nerc_checkpoint_epochs, trainLoop]
  · intro fs i
    rw [train_nerc_checkpoint_epochs, trainLoop_mem fs 0 0 i]
    simp

/-- C9: if any token/tag line of the input carries a tag whose (effective)
prefix letter is outside `{B, I, O}`, the conversion raises and the whole
pass returns an error - no partial instance list is produced. -/
theorem c9_theorem :
    ∀ lines : List String, (∃ l ∈ lines, isBadTagLine (classify l) = true) →
      ∃ m, load_spacy_train_data_from_bio_dataset lines = .error m := by
  intro lines h
  unfold load_spacy_train_data_from_bio_dataset loadB
  obtain ⟨m, hm⟩ := processLines_bad (lines.map classify) initState
    (by obtain ⟨l, hl, hb⟩ := h
        exact ⟨classify l, List.mem_map_of_mem classify hl, hb⟩)
  rw [hm]
  exact ⟨m, rfl⟩

/-- C9 witness: the single line `x Z-PER` makes the conversion fail. -/
theorem c9_witness :
    ∃ m, load_spacy_train_data_from_bio_dataset [("x Z-PER")] = .error m :=
  c9_theorem [("x Z-PER")] ⟨("x Z-PER"), List.mem_singleton.mpr rfl, by decide⟩

/-- C10: lines occurring after the last blank line contribute to no
returned training instance: if the trailing segment of the input holds no
blank line and the full conversion succeeds, dropping that whole segment
yields exactly the same result. -/
theorem c10_theorem :
    ∀ (l1 l2 : List String) (r : List TrainInstance),
      (∀ l ∈ l2, pyStripL l.data ≠ []) →
      load_spacy_train_data_from_bio_dataset (l1 ++ l2) = .ok r →
      load_spacy_train_data_from_bio_dataset l1 = .ok r := by
  intro l1 l2 r hnb hok
  unfold load_spacy_train_data_from_bio_dataset at hok ⊢
  rw [List.map_append] at hok
  unfold loadB at hok ⊢
  rcases hproc : processLines initState (l1.map classify ++ l2.map classify)
    with e | sf
  · rw [hproc] at hok
    cases hok
  · rw [hproc] at hok
    obtain ⟨s1, h1, h2⟩ := processLines_append_ok _ _ _ _ hproc
    have hi : sf.instances = s1.instances :=
      processLines_instances_of_nonblank (l2.map classify) s1 sf
        (by intro bl hbl
            rw [List.mem_map] at hbl
            obtain ⟨l, hl, he⟩ := hbl
            rw [← he]
            exact classify_ne_blank (hnb l hl)) h2
    have hok2 : Except.ok (remove_overlapping_entities sf.instances)
        = Except.ok r := hok
    rw [h1]
    show Except.ok (remove_overlapping_entities s1.instances) = Except.ok r
    rw [← hi]
    exact hok2

/-- C10 witness: a final sentence (`x O`, `y B-LOC`) not followed by a
blank line changes nothing about the returned instances. -/
theorem c10_witness :
    (∀ l ∈ ([("x O"), ("y B-LOC")] : List String), pyStripL l.data ≠ []) ∧
    load_spacy_train_data_from_bio_dataset
        ([("a B-PER"), ("")] ++ [("x O"), ("y B-LOC")]) = .ok [(("a").data, [])] ∧
    load_spacy_train_data_from_bio_dataset [("a B-PER"), ("")]
      = .ok [(("a").data, [])] :=
  ⟨by decide, rfl,
    c10_theorem [("a B-PER"), ("")] [("x O"), ("y B-LOC")] [(("a").data, [])]
      (by decide) rfl⟩
